import Mathlib

/-!
Verification of the EVM contract scanner (BlockScanner / ContractDetector /
EthereumProvider / Database) against its natural-language specification.

The JavaScript sources are shallowly embedded as executable Lean functions.
Asynchronous RPC calls are modelled as oracle functions returning
`Except Unit _` (an `error` value models a thrown / rejected promise);
JavaScript `null` and `undefined` are modelled with `Option`; JavaScript
string truthiness (the empty string is falsy) is modelled explicitly.
-/

namespace Scanner

/-- JavaScript truthiness of an optional string: `undefined`, `null` and the
empty string are falsy. -/
def truthyStr : Option String → Bool
  | some s => s ≠ ""
  | none => false

/-- Embedding of JavaScript `String.prototype.toLowerCase` (ASCII fragment,
which is all that hex addresses use): lowercase each character. -/
def toLower (s : String) : String := String.mk (s.toList.map Char.toLower)

/-! ## Retry policy: `EthereumProvider.withRetry`

The provider constructor sets `this.retryDelay = 1000` and
`this.maxRetryDelay = 30000`.  `withRetry` runs
`for (attempt = 0; attempt <= maxRetries; attempt++)`; on failure, if
`attempt < maxRetries` it sleeps `delay` and then sets
`delay = min(delay * 2, maxRetryDelay)`; after the loop the last error is
rethrown.  The embedding records the outcome, the number of calls actually
made to the underlying operation, and the sequence of back-off delays slept
between consecutive attempts.  The operation oracle `op` gives the result of
each attempt (indexed from 0). -/

/-- Initial retry delay in milliseconds (`this.retryDelay = 1000`). -/
def initialRetryDelay : Nat := 1000

/-- Delay ceiling in milliseconds (`this.maxRetryDelay = 30000`). -/
def maxRetryDelay : Nat := 30000

/-- Outcome of the retry loop: final result, number of attempts made, and
the delays slept between consecutive attempts, in order. -/
structure RetryRun (ε α : Type) where
  result : Except ε α
  attempts : Nat
  delays : List Nat
deriving Repr

/-- The retry loop of `EthereumProvider.withRetry`, recursing on the number
of retries still allowed.  `attempt` is the index of the current attempt and
`delay` the back-off delay that would be slept before the next attempt. -/
def withRetryGo {ε α : Type} (op : Nat → Except ε α) (attempt delay : Nat) :
    Nat → RetryRun ε α
  | 0 =>
    match op attempt with
    | .ok a => ⟨.ok a, 1, []⟩
    | .error e => ⟨.error e, 1, []⟩
  | remaining + 1 =>
    match op attempt with
    | .ok a => ⟨.ok a, 1, []⟩
    | .error _ =>
      let rest := withRetryGo op (attempt + 1) (min (delay * 2) maxRetryDelay) remaining
      ⟨rest.result, rest.attempts + 1, delay :: rest.delays⟩

/-- Embedding of `EthereumProvider.withRetry(operation)` with
`this.maxRetries = maxRetries`. -/
def withRetry {ε α : Type} (op : Nat → Except ε α) (maxRetries : Nat) : RetryRun ε α :=
  withRetryGo op 0 initialRetryDelay maxRetries

/-- The delay used before retry number `i + 1`, starting from `d` and doubling
with a ceiling of `maxRetryDelay` each step. -/
def backoffSeq (d : Nat) : Nat → Nat
  | 0 => d
  | i + 1 => backoffSeq (min (d * 2) maxRetryDelay) i

/-! ## Scanner lifecycle: `BlockScanner.start` / `stop` / `pause` / `resume`

The scanner's lifecycle state consists of the two flags `isRunning` and
`isPaused`.  `start` returns early when already running; otherwise it sets
`isRunning = true` and launches a scan.  `stop` returns early when not
running; otherwise it clears both flags and disconnects.  The embedding
tracks the flags; `startScanner` additionally returns whether a new scan was
begun by this call. -/

/-- Lifecycle flags of a `BlockScanner` instance. -/
structure ScannerState where
  isRunning : Bool
  isPaused : Bool
deriving Repr, DecidableEq

/-- Constructor state: `this.isRunning = false; this.isPaused = false`. -/
def initialScanner : ScannerState := ⟨false, false⟩

/-- Embedding of `BlockScanner.start`: no-op when already running; otherwise
sets `isRunning` and begins scanning.  The boolean is true exactly when this
call began a new scan. -/
def startScanner (s : ScannerState) : ScannerState × Bool :=
  if s.isRunning then (s, false)
  else ({ s with isRunning := true }, true)

/-- Embedding of `BlockScanner.stop`: no-op when not running; otherwise
clears `isRunning` and `isPaused` (and disconnects the providers). -/
def stopScanner (s : ScannerState) : ScannerState :=
  if s.isRunning then { isRunning := false, isPaused := false } else s

/-- Embedding of `BlockScanner.pause`. -/
def pauseScanner (s : ScannerState) : ScannerState :=
  if s.isRunning then { s with isPaused := true } else s

/-- Embedding of `BlockScanner.resume`. -/
def resumeScanner (s : ScannerState) : ScannerState :=
  if s.isRunning then { s with isPaused := false } else s

/-! ## Record sink: `Database` (SQLite)

The `contracts` table declares `address TEXT UNIQUE NOT NULL`; the uniqueness
constraint is on `address` alone — `network` is an ordinary column.
`Database.saveContract` runs `INSERT OR REPLACE INTO contracts (...)`, so a
conflicting row (same `address`) is deleted and the new row appended.  The
embedding models the table as a list of rows in rowid order; timestamp
columns (`created_at` / `updated_at`) are not modelled. -/

/-- A detected contract as built by `ContractDetector.extractContractData`.
The `creationType` field is absent (`none`) for direct creations and set to
"factory" or "create2" by the heuristic detectors; `gasUsed` and `gasPrice`
are nullable in the JavaScript object. -/
structure ContractRecord where
  address : String
  creatorAddress : String
  transactionHash : Option String
  blockNumber : Nat
  blockHash : String
  blockTimestamp : Nat
  gasUsed : Option Nat
  gasPrice : Option Nat
  contractSize : Int
  bytecodeHash : String
  network : String
  chainId : Nat
  creationType : Option String
deriving Repr, DecidableEq

/-- A row of the `contracts` table (the columns written by `saveContract`;
`creationType` has no column and is not persisted). -/
structure ContractRow where
  address : String
  creatorAddress : String
  transactionHash : Option String
  blockNumber : Nat
  blockHash : String
  blockTimestamp : Nat
  gasUsed : Option Nat
  gasPrice : Option Nat
  contractSize : Int
  bytecodeHash : String
  network : String
  chainId : Nat
deriving Repr, DecidableEq

/-- The column values bound by `Database.saveContract` for a record. -/
def rowOfRecord (r : ContractRecord) : ContractRow :=
  { address := r.address
    creatorAddress := r.creatorAddress
    transactionHash := r.transactionHash
    blockNumber := r.blockNumber
    blockHash := r.blockHash
    blockTimestamp := r.blockTimestamp
    gasUsed := r.gasUsed
    gasPrice := r.gasPrice
    contractSize := r.contractSize
    bytecodeHash := r.bytecodeHash
    network := r.network
    chainId := r.chainId }

/-- Embedding of `Database.saveContract`: `INSERT OR REPLACE` keyed by the
`UNIQUE(address)` constraint — any existing row with the same address is
replaced; the new row is appended with a fresh rowid. -/
def saveContract (db : List ContractRow) (r : ContractRecord) : List ContractRow :=
  db.filter (fun row => row.address ≠ r.address) ++ [rowOfRecord r]

/-- The stored rows for a given (address, network) pair. -/
def contractsFor (db : List ContractRow) (address network : String) : List ContractRow :=
  db.filter (fun row => row.address = address ∧ row.network = network)

/-! ## Historical range resolution: `BlockScanner.determineBlockRange`

`startBlock` / `endBlock` come from the scanner config and are either a
number or the string "latest" (resolved to the current chain height).  The
saved progress is consulted with `if (progress && progress.last_scanned_block)`
— note that a stored `last_scanned_block` of 0 is falsy in JavaScript, so a
checkpoint at block 0 does NOT trigger the resume rule.  If the resolved
start exceeds the resolved end an error is thrown, before any block is
fetched. -/

/-- A configured block bound: a concrete number or the string "latest". -/
inductive BlockSpec where
  | latest
  | num (n : Nat)
deriving Repr, DecidableEq

/-- Resolution of the "latest" keyword against the current chain height. -/
def resolveSpec (latestBlock : Nat) : BlockSpec → Nat
  | .latest => latestBlock
  | .num n => n

/-- The effective start block after consulting the saved progress:
`startBlock = Math.max(startBlock, progress.last_scanned_block + 1)` guarded
by `if (progress && progress.last_scanned_block)` — the guard is JavaScript
truthiness, so a saved `last_scanned_block` of 0 leaves the configured start
unchanged. -/
def resolvedStart (latestBlock : Nat) (cfgStart : BlockSpec)
    (progress : Option Nat) : Nat :=
  let s0 := resolveSpec latestBlock cfgStart
  match progress with
  | some last => if last ≠ 0 then max s0 (last + 1) else s0
  | none => s0

/-- Embedding of `BlockScanner.determineBlockRange`.  `progress` is the
`last_scanned_block` of the saved row for this network, if such a row
exists. -/
def determineBlockRange (latestBlock : Nat) (cfgStart cfgEnd : BlockSpec)
    (progress : Option Nat) : Except String (Nat × Nat) :=
  let s := resolvedStart latestBlock cfgStart progress
  let e0 := resolveSpec latestBlock cfgEnd
  if s > e0 then .error "Invalid block range" else .ok (s, e0)

/-- The (currentStart, currentEnd) pairs visited by the loop of
`BlockScanner.scanBlockRange`:
`for (currentStart = s; currentStart <= e; currentStart += batchSize)` with
`currentEnd = min(currentStart + batchSize - 1, e)`.  The configuration
requires `batchSize > 0` (the loop would not terminate otherwise); the guard
makes the recursion total. -/
def batchList (batchSize s e : Nat) : List (Nat × Nat) :=
  if _h : 0 < batchSize ∧ s ≤ e then
    (s, min (s + batchSize - 1) e) :: batchList batchSize (s + batchSize) e
  else []
termination_by e + 1 - s
decreasing_by omega

/-- All block numbers covered by the batches of a scan, in scan order. -/
def batchBlocks (batchSize s e : Nat) : List Nat :=
  (batchList batchSize s e).flatMap (fun p => List.range' p.1 (p.2 + 1 - p.1))

/-! ## Chain data as seen by the detector

Shapes of the JavaScript objects handed to `ContractDetector`.  Fields that
may be `null` / `undefined` are `Option`s. -/

/-- An event log entry of a receipt. -/
structure LogJS where
  address : Option String
  topics : List String
  data : Option String
deriving Repr, DecidableEq

/-- A transaction receipt.  `status` is 1 for success. -/
structure ReceiptJS where
  status : Nat
  contractAddress : Option String
  gasUsed : Option Nat
  logs : List LogJS
deriving Repr, DecidableEq

/-- A transaction inside a block.  `sender` is the JavaScript `from` field,
`toAddr` the `to` field (absent for creation transactions), `input` the
`data` field. -/
structure TxnJS where
  hash : Option String
  sender : Option String
  toAddr : Option String
  gasPrice : Option Nat
  input : Option String
deriving Repr, DecidableEq

/-- A fetched block.  `transactions` may be absent, and individual entries
may be `null`. -/
structure BlockJS where
  number : Nat
  hash : String
  timestamp : Nat
  transactions : Option (List (Option TxnJS))
deriving Repr, DecidableEq

/-- The RPC surface the detector uses, already wrapped in the retry policy:
an `error` result models an exception thrown after exhausting retries (or,
for `getReceipt`, any rejection); `getReceipt` returning `ok none` models a
null receipt.  `sha256` abstracts `crypto.createHash('sha256')`. -/
structure ProviderM where
  getCode : String → Except Unit String
  getReceipt : String → Except Unit (Option ReceiptJS)
  sha256 : String → String
  networkName : String
  chainId : Nat

/-- Embedding of `EthereumProvider.isContractCreation`: the destination is
null or undefined. -/
def isContractCreation (tx : TxnJS) : Bool := tx.toAddr.isNone

/-- Embedding of `EthereumProvider.isContract`: fetch the code and compare
against "0x"; a thrown error is caught and reported as false. -/
def isContract (p : ProviderM) (address : String) : Bool :=
  match p.getCode address with
  | .ok code => code ≠ "0x"
  | .error _ => false

/-! ## Contract detection: `ContractDetector` -/

/-- Is `c` an ASCII hexadecimal digit (the regex class `[a-fA-F0-9]`)? -/
def isHexDigit (c : Char) : Bool :=
  (('0' ≤ c ∧ c ≤ '9') ∨ ('a' ≤ c ∧ c ≤ 'f') ∨ ('A' ≤ c ∧ c ≤ 'F') : Prop)

/-- First match of the regex `0x[a-fA-F0-9]{40}` in a character list
(leftmost match, as `String.prototype.match` returns). -/
def findAddressChars : List Char → Option (List Char)
  | '0' :: 'x' :: rest =>
    if (rest.take 40).length = 40 ∧ (rest.take 40).all isHexDigit then
      some ('0' :: 'x' :: rest.take 40)
    else
      findAddressChars ('x' :: rest)
  | _ :: rest => findAddressChars rest
  | [] => none

/-- Embedding of `ContractDetector.extractAddressFromLog`: if the log has a
second topic that is a 66-character string, take its last 40 characters as
the address; otherwise, if the log data is a truthy string of length at
least 66, return the first `0x[a-fA-F0-9]{40}` match in it. -/
def extractAddressFromLog (log : LogJS) : Option String :=
  match log.topics[1]? with
  | some topic =>
    if topic ≠ "" ∧ topic.length = 66 then
      some ("0x" ++ String.mk (topic.toList.drop (topic.length - 40)))
    else
      extractAddressFromLogData log
  | none => extractAddressFromLogData log
where
  /-- The `log.data` fallback branch of `extractAddressFromLog`. -/
  extractAddressFromLogData (log : LogJS) : Option String :=
    match log.data with
    | some d =>
      if d ≠ "" ∧ d.length ≥ 66 then
        (findAddressChars d.toList).map String.mk
      else
        none
    | none => none

/-- Embedding of `ContractDetector.extractContractData`.  Fetches the code
(a thrown fetch error is caught, yielding null); empty or "0x" code yields
null; otherwise the record is built — reading `transaction.from` when `from`
is absent throws inside the try block and so also yields null.  When the
`analyzeBytecode` option is enabled the code then evaluates
`this.analyzeBytecode(bytecode, contractAddress)`, but `this.analyzeBytecode`
is the boolean configuration flag, not a function (the method is named
`analyzeContractBytecode`), so the call raises a TypeError which the catch
turns into null: with analysis enabled no record is ever returned. -/
def extractContractData (p : ProviderM) (analyzeBytecode : Bool) (tx : TxnJS)
    (receipt : ReceiptJS) (block : BlockJS) (contractAddress : String) :
    Option ContractRecord :=
  match p.getCode contractAddress with
  | .error _ => none
  | .ok bytecode =>
    if bytecode = "" ∨ bytecode = "0x" then none
    else
      match tx.sender with
      | none => none
      | some sender =>
        if analyzeBytecode then none
        else
          some
            { address := toLower contractAddress
              creatorAddress := toLower sender
              transactionHash := tx.hash
              blockNumber := block.number
              blockHash := block.hash
              blockTimestamp := block.timestamp
              gasUsed := receipt.gasUsed
              gasPrice := tx.gasPrice
              contractSize := ((bytecode.length : Int) - 2).fdiv 2
              bytecodeHash := p.sha256 bytecode
              network := p.networkName
              chainId := p.chainId
              creationType := none }

/-- The fixed topic signatures `contractCreationTopics` scanned by
`ContractDetector.detectFactoryContracts`. -/
def contractCreationTopics : List String :=
  [ "0x4db17dd5e4732fb6da34a148104a592783ca119a1e7bb8829eba6cbadef0b511"
  , "0x27b8e3132afa95254770e1c1d214eafde52bc47d1b6e1f5dfcb2d2c3c8b9f8c1"
  , "0x8be0079c531659141344cd1fd0a4f28419497f9722a3daafe3b4186f6b6457e0" ]

/-- Does the character list contain "f5" as a substring (the
`transaction.data.includes('f5')` CREATE2 opcode heuristic)? -/
def containsF5 : List Char → Bool
  | [] => false
  | 'f' :: rest =>
    match rest with
    | '5' :: _ => true
    | _ => containsF5 rest
  | _ :: rest => containsF5 rest

/-- Embedding of `ContractDetector.detectCreate2Contracts`: when the input
data contains the CREATE2 opcode byte pattern, every log whose truthy
address differs from the transaction destination and currently has bytecode
yields a record tagged create2. -/
def detectCreate2Contracts (p : ProviderM) (analyzeBytecode : Bool) (tx : TxnJS)
    (receipt : ReceiptJS) (block : BlockJS) : List ContractRecord :=
  if containsF5 (tx.input.getD "").toList then
    receipt.logs.flatMap (fun log =>
      match log.address with
      | some la =>
        if la ≠ "" ∧ tx.toAddr ≠ some la then
          if isContract p la then
            match extractContractData p analyzeBytecode tx receipt block la with
            | some cd => [{ cd with creationType := some "create2" }]
            | none => []
          else []
        else []
      | none => [])
  else []

/-- Embedding of `ContractDetector.detectFactoryContracts`: scan the
receipt's logs for the known creation topic signatures; a matching log whose
extracted candidate address currently has bytecode yields a record tagged
factory.  Then, if the transaction input is truthy and longer than 10
characters, run the CREATE2 heuristic. -/
def detectFactoryContracts (p : ProviderM) (analyzeBytecode : Bool)
    (receipt : ReceiptJS) (tx : TxnJS) (block : BlockJS) : List ContractRecord :=
  let fromLogs := receipt.logs.flatMap (fun log =>
    match log.topics[0]? with
    | some t0 =>
      if t0 ∈ contractCreationTopics then
        match extractAddressFromLog log with
        | some a =>
          if isContract p a then
            match extractContractData p analyzeBytecode tx receipt block a with
            | some cd => [{ cd with creationType := some "factory" }]
            | none => []
          else []
        | none => []
      else []
    | none => [])
  let create2 :=
    if truthyStr tx.input ∧ (tx.input.getD "").length > 10 then
      detectCreate2Contracts p analyzeBytecode tx receipt block
    else []
  fromLogs ++ create2

/-- Embedding of `ContractDetector.processTransaction`.  Returns null (and
the caller records zero contracts) for: a falsy hash, a non-creation
transaction (`to` present), a receipt fetch error, a null receipt, or a
receipt with non-success status.  Otherwise the direct record (when the
receipt carries a truthy `contractAddress` and extraction succeeds) is
followed by the factory / CREATE2 detections. -/
def processTransaction (p : ProviderM) (analyzeBytecode : Bool) (tx : TxnJS)
    (block : BlockJS) : Option (List ContractRecord) :=
  match tx.hash with
  | none => none
  | some h =>
    if h = "" then none
    else if tx.toAddr.isSome then none
    else
      match p.getReceipt h with
      | .error _ => none
      | .ok none => none
      | .ok (some receipt) =>
        if receipt.status ≠ 1 then none
        else
          let direct :=
            match receipt.contractAddress with
            | some ca =>
              if ca = "" then []
              else (extractContractData p analyzeBytecode tx receipt block ca).toList
            | none => []
          some (direct ++ detectFactoryContracts p analyzeBytecode receipt tx block)

/-- Embedding of `ContractDetector.processBlock`.  A null block or a block
without a `transactions` field yields the empty array.  Transactions that
are null or lack a truthy hash are filtered out; each remaining transaction
is processed independently, a per-transaction exception (already absorbed
into `none` by `processTransaction`) contributing no records; the per-
transaction arrays are flattened in transaction order. -/
def processBlockD (p : ProviderM) (analyzeBytecode : Bool)
    (blockOpt : Option BlockJS) : List ContractRecord :=
  match blockOpt with
  | none => []
  | some block =>
    match block.transactions with
    | none => []
    | some txs =>
      ((txs.filterMap id).filter (fun t => truthyStr t.hash)).flatMap
        (fun tx => (processTransaction p analyzeBytecode tx block).getD [])

/-! ## Batch fetch: `EthereumProvider.getBatchBlocks`

One `getBlock` per number in `[startBlock, endBlock]`, issued concurrently;
`Promise.allSettled` collects the outcomes, rejected fetches are logged and
omitted, and the fulfilled ones are sorted by block number with
`.sort((a, b) => a.blockNumber - b.blockNumber)`.  The fetch oracle gives
each block's outcome; individual completion order cannot influence the
result because `allSettled` preserves issue order and the final sort orders
by block number — the sort is modelled as insertion sort by key, which
agrees with any comparator-consistent sort once keys are distinct. -/

/-- Insert a keyed element into a list sorted by ascending key. -/
def insertByKey {β : Type} (x : Nat × β) : List (Nat × β) → List (Nat × β)
  | [] => [x]
  | y :: ys => if x.1 ≤ y.1 then x :: y :: ys else y :: insertByKey x ys

/-- Sort a keyed list by ascending key (the JavaScript
`.sort((a, b) => a.blockNumber - b.blockNumber)`). -/
def sortByKey {β : Type} : List (Nat × β) → List (Nat × β)
  | [] => []
  | x :: xs => insertByKey x (sortByKey xs)

/-- The fulfilled fetches of the batch, in issue (= block-number) order. -/
def batchSuccesses (fetch : Nat → Except Unit BlockJS) (startBlock endBlock : Nat) :
    List (Nat × BlockJS) :=
  (List.range' startBlock (endBlock + 1 - startBlock)).filterMap (fun n =>
    match fetch n with
    | .ok b => some (n, b)
    | .error _ => none)

/-- Embedding of `EthereumProvider.getBatchBlocks`: the fulfilled results,
sorted by block number. -/
def getBatchBlocks (fetch : Nat → Except Unit BlockJS) (startBlock endBlock : Nat) :
    List (Nat × BlockJS) :=
  sortByKey (batchSuccesses fetch startBlock endBlock)

/-! ## Checkpoint ordering: the historical scan loop as an event trace

`BlockScanner.scanBlockRange` processes each batch with `processBatch`
(fetch the batch, run the detector on every returned block, attempt to save
every detected record — `saveContracts` catches each record's save failure,
logs it and continues) and then calls
`database.updateScanningProgress(network, currentEnd, mode)`.  The embedding
records this as an event trace: one `saveAttempt` per detected record (with
the block it came from and whether the save succeeded) and one
`checkpointSet` per batch.  `fetchOk b` abstracts whether block `b`'s fetch
was fulfilled (failed fetches are omitted from the batch by
`getBatchBlocks`), `detect b` the records `detector.processBlock` returns
for block `b`, and `save r` whether `database.saveContract(r)` succeeded. -/

/-- An observable action of the historical scan loop. -/
inductive ScanEvent where
  | saveAttempt (blockNumber : Nat) (record : ContractRecord) (ok : Bool)
  | checkpointSet (blockNumber : Nat)
deriving Repr, DecidableEq

/-- Save attempts made while processing one block (`BlockScanner.processBlock`
followed by `saveContracts`). -/
def blockEvents (detect : Nat → List ContractRecord) (save : ContractRecord → Bool)
    (b : Nat) : List ScanEvent :=
  (detect b).map (fun r => .saveAttempt b r (save r))

/-- Save attempts of one batch (`BlockScanner.processBatch`): the blocks of
`[c, d]` whose fetch was fulfilled, each processed. -/
def batchEvents (fetchOk : Nat → Bool) (detect : Nat → List ContractRecord)
    (save : ContractRecord → Bool) (c d : Nat) : List ScanEvent :=
  ((List.range' c (d + 1 - c)).filter fetchOk).flatMap (blockEvents detect save)

/-- The event trace of `BlockScanner.scanBlockRange s e`: per batch, the save
attempts followed by the checkpoint update to the batch's last block. -/
def scanEvents (fetchOk : Nat → Bool) (detect : Nat → List ContractRecord)
    (save : ContractRecord → Bool) (batchSize s e : Nat) : List ScanEvent :=
  (batchList batchSize s e).flatMap (fun p =>
    batchEvents fetchOk detect save p.1 p.2 ++ [.checkpointSet p.2])

/-- The records the trace actually persisted. -/
def savedRecords (events : List ScanEvent) : List ContractRecord :=
  events.filterMap (fun ev =>
    match ev with
    | .saveAttempt _ r true => some r
    | _ => none)

/-- The checkpoint value after the trace: the last `checkpointSet`, if any. -/
def finalCheckpoint (events : List ScanEvent) : Option Nat :=
  (events.filterMap (fun ev =>
    match ev with
    | .checkpointSet n => some n
    | _ => none)).getLast?

/-! ## Theorems -/

/-! ### C7: retry policy of the chain client -/

/-- Doubling then capping commutes with capping first. -/
theorem min_double_cap (x c : Nat) : min (min x c * 2) c = min (x * 2) c := by
  omega

/-- The back-off sequence starting from a capped power of two stays on the
capped powers of two. -/
theorem backoffSeq_shift :
    ∀ i j : Nat,
      backoffSeq (min (initialRetryDelay * 2 ^ j) maxRetryDelay) i =
        min (initialRetryDelay * 2 ^ (j + i)) maxRetryDelay := by
  intro i
  induction i with
  | zero => intro j; simp [backoffSeq]
  | succ i ih =>
    intro j
    rw [backoffSeq, min_double_cap]
    have h2 : initialRetryDelay * 2 ^ j * 2 = initialRetryDelay * 2 ^ (j + 1) := by
      rw [pow_succ]; ring
    rw [h2, ih (j + 1)]
    have h3 : j + 1 + i = j + (i + 1) := by omega
    rw [h3]

/-- The delays slept by the loop follow the back-off sequence seeded with the
delay the loop started from. -/
theorem withRetryGo_delays {ε α : Type} (op : Nat → Except ε α) :
    ∀ (remaining attempt d i : Nat),
      (withRetryGo op attempt d remaining).delays[i]? =
        if i < (withRetryGo op attempt d remaining).delays.length then
          some (backoffSeq d i)
        else none := by
  intro remaining
  induction remaining with
  | zero =>
    intro a d i
    cases hop : op a <;> simp [withRetryGo, hop]
  | succ r ih =>
    intro a d i
    cases hop : op a with
    | ok v => simp [withRetryGo, hop]
    | error e =>
      simp only [withRetryGo, hop]
      cases i with
      | zero => simp [backoffSeq]
      | succ i =>
        simp only [List.getElem?_cons_succ, List.length_cons]
        rw [ih (a + 1) (min (d * 2) maxRetryDelay) i, backoffSeq]
        simp

/-- The loop makes at most one attempt more than the retries it was given. -/
theorem withRetryGo_attempts {ε α : Type} (op : Nat → Except ε α) :
    ∀ (remaining attempt d : Nat),
      (withRetryGo op attempt d remaining).attempts ≤ remaining + 1 := by
  intro remaining
  induction remaining with
  | zero => intro a d; cases hop : op a <;> simp [withRetryGo, hop]
  | succ r ih =>
    intro a d
    cases hop : op a with
    | ok v => simp [withRetryGo, hop]
    | error e =>
      simp only [withRetryGo, hop]
      have := ih (a + 1) (min (d * 2) maxRetryDelay)
      omega

/-- When every attempt fails, the loop's result is the error of its final
attempt. -/
theorem withRetryGo_allFail {ε α : Type} (op : Nat → Except ε α) (f : Nat → ε)
    (hop : ∀ k, op k = .error (f k)) :
    ∀ (remaining attempt d : Nat),
      (withRetryGo op attempt d remaining).result = .error (f (attempt + remaining)) := by
  intro remaining
  induction remaining with
  | zero => intro a d; simp [withRetryGo, hop a]
  | succ r ih =>
    intro a d
    simp only [withRetryGo, hop a]
    rw [ih (a + 1) (min (d * 2) maxRetryDelay)]
    have h3 : a + 1 + r = a + (r + 1) := by omega
    rw [h3]

/-- C7: false as stated — with `maxRetries = 0` the loop still makes one
attempt (`for (attempt = 0; attempt <= maxRetries; ...)` runs
`maxRetries + 1` times), so an RPC call does not perform "at most
maxRetries attempts". -/
theorem c7_attempts_counterexample :
    (withRetry (fun _ => (Except.error 0 : Except Nat Unit)) 0).attempts = 1 ∧
    ¬ (withRetry (fun _ => (Except.error 0 : Except Nat Unit)) 0).attempts ≤ 0 := by
  decide

/-- C7 (amended): every RPC call performs at most `maxRetries + 1` attempts;
the delay slept before retry `i + 1` is `min(1000 * 2 ^ i, 30000)`
milliseconds — starting at 1000 ms, doubling per retry, capped at 30000 ms —
and when every attempt fails the error of the last attempt is thrown to the
caller. -/
theorem c7_retry_policy {ε α : Type} (op : Nat → Except ε α) (maxRetries : Nat) :
    (withRetry op maxRetries).attempts ≤ maxRetries + 1 ∧
    (∀ i, i < (withRetry op maxRetries).delays.length →
      (withRetry op maxRetries).delays[i]? =
        some (min (initialRetryDelay * 2 ^ i) maxRetryDelay)) ∧
    (∀ f : Nat → ε, (∀ k, op k = .error (f k)) →
      (withRetry op maxRetries).result = .error (f maxRetries)) := by
  refine ⟨withRetryGo_attempts op maxRetries 0 initialRetryDelay, ?_, ?_⟩
  · intro i hi
    have h := withRetryGo_delays op maxRetries 0 initialRetryDelay i
    rw [withRetry] at hi ⊢
    rw [h, if_pos hi]
    have h2 := backoffSeq_shift i 0
    have h0 : min (initialRetryDelay * 2 ^ 0) maxRetryDelay = initialRetryDelay := by
      norm_num [initialRetryDelay, maxRetryDelay]
    rw [h0] at h2
    rw [h2]
    simp
  · intro f hf
    have h := withRetryGo_allFail op f hf maxRetries 0 initialRetryDelay
    rw [withRetry, h]
    simp

/-- C7 witness: with `maxRetries = 3` and an operation that always fails,
the second delay is 2000 ms and the final error surfaces. -/
theorem c7_retry_policy_witness :
    (withRetry (fun _ => (Except.error 9 : Except Nat Unit)) 3).delays[1]? = some 2000 ∧
    (withRetry (fun _ => (Except.error 9 : Except Nat Unit)) 3).result = .error 9 := by
  obtain ⟨-, hd, hr⟩ := c7_retry_policy (fun _ => (Except.error 9 : Except Nat Unit)) 3
  constructor
  · have h1 := hd 1 (by decide)
    simpa using h1
  · exact hr (fun _ => 9) (fun _ => rfl)

/-! ### C8: scanner lifecycle after stop -/

/-- C8: false as stated — stop is not terminal.  Starting, stopping, then
calling start again on the same instance begins a new scan: `stop` only
clears `isRunning`, and `start` checks nothing else. -/
theorem c8_counterexample :
    (startScanner (stopScanner (startScanner initialScanner).1)).2 = true ∧
    (startScanner (stopScanner (startScanner initialScanner).1)).1.isRunning = true := by
  decide

/-- C8 (amended): stopping a running scanner returns the instance to the
constructor state (`isRunning = false`, `isPaused = false`), and a
subsequent start call on the same instance does begin a new scan, re-
entering the running state. -/
theorem c8_stop_then_start (s : ScannerState) (h : s.isRunning = true) :
    stopScanner s = initialScanner ∧
    (startScanner (stopScanner s)).2 = true ∧
    (startScanner (stopScanner s)).1 = { isRunning := true, isPaused := false } := by
  simp [stopScanner, h, startScanner, initialScanner]

/-! ### C1: historical range resolution and batch coverage -/

/-- Unfolding equation of `batchList`. -/
theorem batchList_eq (batchSize s e : Nat) :
    batchList batchSize s e =
      if 0 < batchSize ∧ s ≤ e then
        (s, min (s + batchSize - 1) e) :: batchList batchSize (s + batchSize) e
      else [] := by
  rw [batchList]
  simp

/-- With a positive batch size the batches of `scanBlockRange` cover exactly
the interval from `s` to `e`, in order, with no block repeated or skipped. -/
theorem batchBlocks_eq_range' (batchSize : Nat) (hbs : 0 < batchSize) :
    ∀ (fuel s e : Nat), e + 1 - s ≤ fuel →
      batchBlocks batchSize s e = List.range' s (e + 1 - s) := by
  intro fuel
  induction fuel with
  | zero =>
    intro s e hse
    rw [batchBlocks, batchList_eq, if_neg (by omega)]
    simp [show e + 1 - s = 0 by omega]
  | succ n ih =>
    intro s e hse
    by_cases h : s ≤ e
    · rw [batchBlocks, batchList_eq, if_pos ⟨hbs, h⟩, List.flatMap_cons]
      have htail : (batchList batchSize (s + batchSize) e).flatMap
          (fun p => List.range' p.1 (p.2 + 1 - p.1)) =
          batchBlocks batchSize (s + batchSize) e := rfl
      rw [htail, ih (s + batchSize) e (by omega)]
      by_cases h2 : e ≤ s + batchSize - 1
      · rw [show min (s + batchSize - 1) e = e by omega]
        rw [show e + 1 - (s + batchSize) = 0 by omega]
        simp
      · rw [show min (s + batchSize - 1) e = s + batchSize - 1 by omega]
        rw [show s + batchSize - 1 + 1 - s = batchSize by omega]
        have happ := List.range'_append s batchSize (e + 1 - (s + batchSize)) 1
        rw [one_mul] at happ
        rw [happ]
        congr 1
        omega
    · rw [batchBlocks, batchList_eq, if_neg (by omega)]
      simp [show e + 1 - s = 0 by omega]

/-- C1: false as stated at a checkpoint of 0 — `determineBlockRange` guards
the resume rule with `if (progress && progress.last_scanned_block)`, and a
stored `last_scanned_block` of 0 is falsy.  With configured range [0, 0] and
a checkpoint at block 0, the claim's resolved start is
`max(0, 0 + 1) = 1 > 0`, so the claim mandates aborting before any fetch;
the code instead returns the range (0, 0) and scans block 0. -/
theorem c1_checkpoint_zero_counterexample :
    determineBlockRange 10 (BlockSpec.num 0) (BlockSpec.num 0) (some 0) =
      .ok (0, 0) ∧
    max 0 (0 + 1) > 0 :=
  ⟨rfl, by decide⟩

/-- C1 (amended): for every configuration whose resolved range satisfies
start ≤ end, a single historical pass processes every block in
[resolvedStart, resolvedEnd] exactly once across its batches, where
resolvedStart is the maximum of the configured start and
(checkpoint.lastScannedBlock + 1) when a checkpoint with a NONZERO
lastScannedBlock exists (a checkpoint value of 0 is falsy in JavaScript and
is ignored); if the resolved start exceeds the resolved end, the scan
aborts before any block fetch. -/
theorem c1_historical_pass (latestBlock : Nat) (cfgStart cfgEnd : BlockSpec)
    (progress : Option Nat) (batchSize s e : Nat) (hbs : 0 < batchSize)
    (hok : determineBlockRange latestBlock cfgStart cfgEnd progress = .ok (s, e)) :
    s ≤ e ∧
    (∀ last, progress = some last → last ≠ 0 →
      s = max (resolveSpec latestBlock cfgStart) (last + 1)) ∧
    (progress = none → s = resolveSpec latestBlock cfgStart) ∧
    batchBlocks batchSize s e = List.range' s (e + 1 - s) ∧
    (∀ b, s ≤ b → b ≤ e → (batchBlocks batchSize s e).count b = 1) ∧
    (∀ b, b < s ∨ e < b → (batchBlocks batchSize s e).count b = 0) ∧
    (∀ (latest2 : Nat) (cs2 ce2 : BlockSpec) (p2 : Option Nat),
      resolvedStart latest2 cs2 p2 > resolveSpec latest2 ce2 →
      determineBlockRange latest2 cs2 ce2 p2 = .error "Invalid block range") := by
  rw [determineBlockRange] at hok
  split at hok
  · exact absurd hok (by simp)
  · rename_i hle
    have hs : s = resolvedStart latestBlock cfgStart progress := by
      cases hok; rfl
    have he : e = resolveSpec latestBlock cfgEnd := by
      cases hok; rfl
    have hse : s ≤ e := by rw [hs, he]; omega
    have hcover : batchBlocks batchSize s e = List.range' s (e + 1 - s) :=
      batchBlocks_eq_range' batchSize hbs (e + 1 - s) s e le_rfl
    refine ⟨hse, ?_, ?_, hcover, ?_, ?_, ?_⟩
    · intro last hp hlast
      rw [hs, hp, resolvedStart]
      simp [hlast]
    · intro hp
      rw [hs, hp, resolvedStart]
    · intro b hb1 hb2
      rw [hcover]
      refine List.count_eq_one_of_mem (List.nodup_range' s (e + 1 - s)) ?_
      rw [List.mem_range']
      exact ⟨b - s, by omega, by omega⟩
    · intro b hb
      rw [hcover, List.count_eq_zero]
      rw [List.mem_range']
      rintro ⟨i, hi, rfl⟩
      omega
    · intro latest2 cs2 ce2 p2 hgt
      rw [determineBlockRange, if_pos hgt]

/-- C1 witness: configured range [100, 103], no checkpoint, batch size 2 —
the two batches cover 100, 101, 102, 103 each exactly once. -/
theorem c1_historical_pass_witness :
    batchBlocks 2 100 103 = List.range' 100 4 ∧
    (batchBlocks 2 100 103).count 101 = 1 ∧
    (batchBlocks 2 100 103).count 99 = 0 := by
  obtain ⟨-, -, -, hb, hc, hz, -⟩ :=
    c1_historical_pass 10 (BlockSpec.num 100) (BlockSpec.num 103) none 2 100 103
      (by decide) rfl
  exact ⟨by simpa using hb, hc 101 (by decide) (by decide), hz 99 (by decide)⟩

/-! ### C2: checkpoint advancement versus record persistence -/

/-- Unfolding equation of `scanEvents`. -/
theorem scanEvents_eq (fetchOk : Nat → Bool) (detect : Nat → List ContractRecord)
    (save : ContractRecord → Bool) (bs s e : Nat) :
    scanEvents fetchOk detect save bs s e =
      if 0 < bs ∧ s ≤ e then
        batchEvents fetchOk detect save s (min (s + bs - 1) e) ++
          ScanEvent.checkpointSet (min (s + bs - 1) e) ::
            scanEvents fetchOk detect save bs (s + bs) e
      else [] := by
  rw [scanEvents, batchList_eq]
  split
  · rw [List.flatMap_cons]
    simp [scanEvents]
  · simp

/-- Every event of a batch is a save attempt for a block of that batch. -/
theorem batchEvents_mem (fetchOk : Nat → Bool) (detect : Nat → List ContractRecord)
    (save : ContractRecord → Bool) (c d : Nat) (ev : ScanEvent)
    (h : ev ∈ batchEvents fetchOk detect save c d) :
    ∃ b r, ev = .saveAttempt b r (save r) ∧ c ≤ b ∧ b ≤ d := by
  rw [batchEvents] at h
  rw [List.mem_flatMap] at h
  obtain ⟨b, hb, hev⟩ := h
  rw [List.mem_filter] at hb
  have hrange := hb.1
  rw [List.mem_range'] at hrange
  obtain ⟨i, hi, rfl⟩ := hrange
  rw [blockEvents, List.mem_map] at hev
  obtain ⟨r, _, rfl⟩ := hev
  exact ⟨c + 1 * i, r, rfl, by omega, by omega⟩

/-- Every save attempt in the trace of a scan starting at `s` is for a block
at or after `s`. -/
theorem scanEvents_save_ge (fetchOk : Nat → Bool) (detect : Nat → List ContractRecord)
    (save : ContractRecord → Bool) (bs : Nat) :
    ∀ (fuel s e : Nat), e + 1 - s ≤ fuel →
      ∀ b r ok, ScanEvent.saveAttempt b r ok ∈ scanEvents fetchOk detect save bs s e →
        s ≤ b := by
  intro fuel
  induction fuel with
  | zero =>
    intro s e hse b r ok hmem
    rw [scanEvents_eq, if_neg (by omega)] at hmem
    simp at hmem
  | succ n ih =>
    intro s e hse b r ok hmem
    rw [scanEvents_eq] at hmem
    split at hmem
    · rename_i hg
      rw [List.mem_append] at hmem
      rcases hmem with hmem | hmem
      · obtain ⟨b2, r2, heq, hb1, -⟩ := batchEvents_mem _ _ _ _ _ _ hmem
        cases heq
        exact hb1
      · rw [List.mem_cons] at hmem
        rcases hmem with hmem | hmem
        · exact absurd hmem (by simp)
        · have := ih (s + bs) e (by omega) b r ok hmem
          omega
    · simp at hmem

/-- Decomposing a list made of save attempts followed by a checkpoint and a
tail, against an arbitrary split at a checkpoint event. -/
theorem saves_checkpoint_split (d0 : Nat) :
    ∀ (a : List ScanEvent), (∀ ev ∈ a, ∃ b r ok, ev = ScanEvent.saveAttempt b r ok) →
      ∀ (p q t : List ScanEvent) (d : Nat),
        a ++ ScanEvent.checkpointSet d0 :: t = p ++ ScanEvent.checkpointSet d :: q →
        (d = d0 ∧ q = t) ∨
        (∃ p2, p = a ++ ScanEvent.checkpointSet d0 :: p2 ∧
          t = p2 ++ ScanEvent.checkpointSet d :: q) := by
  intro a
  induction a with
  | nil =>
    intro _ p q t d heq
    cases p with
    | nil =>
      simp only [List.nil_append] at heq
      cases heq
      exact Or.inl ⟨rfl, rfl⟩
    | cons x p2 =>
      simp only [List.nil_append, List.cons_append] at heq
      obtain ⟨rfl, heq2⟩ := List.cons.inj heq
      exact Or.inr ⟨p2, rfl, heq2⟩
  | cons x a2 ih =>
    intro hsave p q t d heq
    cases p with
    | nil =>
      simp only [List.cons_append, List.nil_append] at heq
      obtain ⟨hx, -⟩ := List.cons.inj heq
      obtain ⟨b, r, ok, hx2⟩ := hsave x (by simp)
      rw [hx2] at hx
      cases hx
    | cons y p2 =>
      simp only [List.cons_append] at heq
      obtain ⟨rfl, heq2⟩ := List.cons.inj heq
      have := ih (fun ev hev => hsave ev (by simp [hev])) p2 q t d heq2
      rcases this with h | ⟨p3, hp3, ht⟩
      · exact Or.inl h
      · exact Or.inr ⟨p3, by rw [hp3, List.cons_append], ht⟩

/-- After any checkpoint event in the trace, every remaining save attempt is
for a strictly later block: the fuel-indexed induction. -/
theorem scanEvents_checkpoint_ordered (fetchOk : Nat → Bool)
    (detect : Nat → List ContractRecord) (save : ContractRecord → Bool)
    (bs : Nat) (hbs : 0 < bs) :
    ∀ (fuel s e : Nat), e + 1 - s ≤ fuel →
      ∀ (p q : List ScanEvent) (d : Nat),
        scanEvents fetchOk detect save bs s e = p ++ ScanEvent.checkpointSet d :: q →
        ∀ b r ok, ScanEvent.saveAttempt b r ok ∈ q → d < b := by
  intro fuel
  induction fuel with
  | zero =>
    intro s e hse p q d heq
    rw [scanEvents_eq, if_neg (by omega)] at heq
    exact absurd heq.symm (List.append_ne_nil_of_right_ne_nil p (by simp))
  | succ n ih =>
    intro s e hse p q d heq b r ok hmem
    rw [scanEvents_eq] at heq
    split at heq
    · rename_i hg
      have hsplit := saves_checkpoint_split (min (s + bs - 1) e)
        (batchEvents fetchOk detect save s (min (s + bs - 1) e))
        (fun ev hev => by
          obtain ⟨b2, r2, heq2, -, -⟩ := batchEvents_mem _ _ _ _ _ _ hev
          exact ⟨b2, r2, save r2, heq2⟩)
        p q (scanEvents fetchOk detect save bs (s + bs) e) d heq
      rcases hsplit with ⟨rfl, rfl⟩ | ⟨p2, -, ht⟩
      · have hge := scanEvents_save_ge fetchOk detect save bs (e + 1 - (s + bs))
          (s + bs) e le_rfl b r ok hmem
        omega
      · exact ih (s + bs) e (by omega) p2 q d ht b r ok hmem
    · exact absurd heq (by
        intro hcontra
        exact (List.append_ne_nil_of_right_ne_nil p (by simp)) hcontra.symm)

/-- A record detected at block 5 whose save will fail. -/
def recC2 : ContractRecord :=
  { address := "0xdead"
    creatorAddress := "0xcafe"
    transactionHash := some "0xt5"
    blockNumber := 5
    blockHash := "0xb5"
    blockTimestamp := 50
    gasUsed := none
    gasPrice := none
    contractSize := 1
    bytecodeHash := "h5"
    network := "ethereum"
    chainId := 1
    creationType := none }

/-- C2: false as stated — `saveContracts` catches each record's save failure
(`return false`), logs a warning and returns normally, so `processBatch`
succeeds and `scanBlockRange` advances the checkpoint anyway.  Scanning the
range [5, 5] where block 5's only detected record fails to save advances
the checkpoint to 5 while nothing was persisted. -/
theorem c2_unpersisted_checkpoint_counterexample :
    scanEvents (fun _ => true) (fun b => if b = 5 then [recC2] else [])
        (fun _ => false) 1 5 5 =
      [ScanEvent.saveAttempt 5 recC2 false, ScanEvent.checkpointSet 5] ∧
    finalCheckpoint (scanEvents (fun _ => true)
        (fun b => if b = 5 then [recC2] else []) (fun _ => false) 1 5 5) = some 5 ∧
    savedRecords (scanEvents (fun _ => true)
        (fun b => if b = 5 then [recC2] else []) (fun _ => false) 1 5 5) = [] := by
  have htrace : scanEvents (fun _ => true) (fun b => if b = 5 then [recC2] else [])
      (fun _ => false) 1 5 5 =
      [ScanEvent.saveAttempt 5 recC2 false, ScanEvent.checkpointSet 5] := by
    rw [scanEvents_eq, if_pos (by norm_num)]
    rw [scanEvents_eq, if_neg (by norm_num)]
    norm_num [batchEvents, blockEvents, List.range']
  refine ⟨htrace, ?_, ?_⟩ <;> rw [htrace] <;> rfl

/-- C2 (amended): during a historical scan, the checkpoint is advanced to a
batch's last block number only after every contract record detected in that
batch has had its save ATTEMPTED (the attempts complete before the
checkpoint update, but an individual attempt may fail, be logged, and not
block advancement): in the scan trace, every save attempt that follows a
checkpoint update to block d is for a block strictly greater than d —
equivalently, all save attempts for blocks up to d happen before the
checkpoint reaches d. -/
theorem c2_checkpoint_after_save_attempts (fetchOk : Nat → Bool)
    (detect : Nat → List ContractRecord) (save : ContractRecord → Bool)
    (bs s e : Nat) (hbs : 0 < bs) (p q : List ScanEvent) (d : Nat)
    (hsplit : scanEvents fetchOk detect save bs s e =
      p ++ ScanEvent.checkpointSet d :: q)
    (b : Nat) (r : ContractRecord) (ok : Bool)
    (hmem : ScanEvent.saveAttempt b r ok ∈ q) : d < b :=
  scanEvents_checkpoint_ordered fetchOk detect save bs hbs (e + 1 - s) s e le_rfl
    p q d hsplit b r ok hmem

/-- C2 witness: in a two-batch scan of [5, 6] with batch size 1, the only
save attempt after the checkpoint update to 5 is for block 6, and the
theorem yields 5 < 6. -/
theorem c2_checkpoint_after_save_attempts_witness :
    scanEvents (fun _ => true) (fun b => if b = 6 then [recC2] else [])
        (fun _ => false) 1 5 6 =
      [] ++ ScanEvent.checkpointSet 5 ::
        [ScanEvent.saveAttempt 6 recC2 false, ScanEvent.checkpointSet 6] ∧
    5 < 6 := by
  have htrace : scanEvents (fun _ => true) (fun b => if b = 6 then [recC2] else [])
      (fun _ => false) 1 5 6 =
      [] ++ ScanEvent.checkpointSet 5 ::
        [ScanEvent.saveAttempt 6 recC2 false, ScanEvent.checkpointSet 6] := by
    rw [scanEvents_eq, if_pos (by norm_num)]
    rw [scanEvents_eq, if_pos (by norm_num)]
    rw [scanEvents_eq, if_neg (by norm_num)]
    norm_num [batchEvents, blockEvents, List.range']
  refine ⟨htrace, ?_⟩
  exact c2_checkpoint_after_save_attempts (fun _ => true)
    (fun b => if b = 6 then [recC2] else []) (fun _ => false) 1 5 6 (by norm_num)
    []
    [ScanEvent.saveAttempt 6 recC2 false, ScanEvent.checkpointSet 6] 5 htrace
    6 recC2 false (by simp)

/-! ### C9: batch fetch — partial results, sorted by block number -/

/-- Inserting into a keyed list permutes consing. -/
theorem insertByKey_perm {β : Type} (x : Nat × β) (l : List (Nat × β)) :
    (insertByKey x l).Perm (x :: l) := by
  induction l with
  | nil => simp [insertByKey]
  | cons y ys ih =>
    rw [insertByKey]
    split
    · exact List.Perm.refl _
    · exact (ih.cons y).trans (List.Perm.swap x y ys)

/-- The insertion sort permutes its input. -/
theorem sortByKey_perm {β : Type} (l : List (Nat × β)) : (sortByKey l).Perm l := by
  induction l with
  | nil => exact List.Perm.refl _
  | cons x xs ih => exact (insertByKey_perm x (sortByKey xs)).trans (ih.cons x)

/-- Insertion preserves sortedness by key. -/
theorem insertByKey_sorted {β : Type} (x : Nat × β) (l : List (Nat × β))
    (h : List.Sorted (fun a b : Nat × β => a.1 ≤ b.1) l) :
    List.Sorted (fun a b : Nat × β => a.1 ≤ b.1) (insertByKey x l) := by
  induction l with
  | nil => simp [insertByKey]
  | cons y ys ih =>
    rw [List.sorted_cons] at h
    rw [insertByKey]
    split
    · rename_i hxy
      rw [List.sorted_cons]
      refine ⟨?_, by rw [List.sorted_cons]; exact h⟩
      intro b hb
      rw [List.mem_cons] at hb
      rcases hb with rfl | hb
      · exact hxy
      · exact le_trans hxy (h.1 b hb)
    · rename_i hxy
      rw [List.sorted_cons]
      refine ⟨?_, ih h.2⟩
      intro b hb
      have := (insertByKey_perm x ys).mem_iff.mp hb
      rw [List.mem_cons] at this
      rcases this with rfl | hbys
      · omega
      · exact h.1 b hbys

/-- The insertion sort produces a key-sorted list. -/
theorem sortByKey_sorted {β : Type} (l : List (Nat × β)) :
    List.Sorted (fun a b : Nat × β => a.1 ≤ b.1) (sortByKey l) := by
  induction l with
  | nil => simp [sortByKey]
  | cons x xs ih => exact insertByKey_sorted x (sortByKey xs) ih

/-- A key-sorted list with duplicate-free keys is strictly key-sorted. -/
theorem sorted_le_of_nodup_lt {β : Type} (l : List (Nat × β))
    (hs : List.Sorted (fun a b : Nat × β => a.1 ≤ b.1) l)
    (hn : (l.map Prod.fst).Nodup) :
    List.Sorted (fun a b : Nat × β => a.1 < b.1) l := by
  induction l with
  | nil => simp
  | cons x xs ih =>
    rw [List.sorted_cons] at hs ⊢
    rw [List.map_cons, List.nodup_cons] at hn
    refine ⟨?_, ih hs.2 hn.2⟩
    intro b hb
    have hle := hs.1 b hb
    have hne : x.1 ≠ b.1 := by
      intro hEq
      exact hn.1 (by rw [hEq]; exact List.mem_map_of_mem Prod.fst hb)
    omega

/-- Sorting any permutation of a strictly key-sorted list recovers it: the
comparator-based sort is insensitive to input (completion) order once keys
are distinct. -/
theorem sortByKey_eq_of_perm {β : Type} (l m : List (Nat × β)) (hperm : l.Perm m)
    (hm : List.Sorted (fun a b : Nat × β => a.1 < b.1) m) : sortByKey l = m := by
  haveI : IsAntisymm (Nat × β) (fun a b : Nat × β => a.1 < b.1) :=
    ⟨fun a b h1 h2 => absurd (h1.trans h2) (lt_irrefl _)⟩
  refine List.eq_of_perm_of_sorted ((sortByKey_perm l).trans hperm) ?_ hm
  refine sorted_le_of_nodup_lt _ (sortByKey_sorted l) ?_
  have hkeys : ((sortByKey l).map Prod.fst).Perm (m.map Prod.fst) :=
    ((sortByKey_perm l).trans hperm).map Prod.fst
  rw [hkeys.nodup_iff]
  rw [List.Nodup, List.pairwise_map]
  exact hm.imp ne_of_lt

/-- The fulfilled fetches are strictly sorted by block number already. -/
theorem batchSuccesses_sorted (fetch : Nat → Except Unit BlockJS) (s e : Nat) :
    List.Sorted (fun a b : Nat × BlockJS => a.1 < b.1) (batchSuccesses fetch s e) := by
  rw [batchSuccesses]
  show List.Pairwise _ _
  rw [List.pairwise_filterMap]
  refine (List.pairwise_lt_range' s (e + 1 - s) 1).imp ?_
  intro m m2 hmm x hx y hy
  have hxm : x.1 = m := by
    cases hf : fetch m with
    | ok v =>
      rw [hf] at hx
      simp at hx
      rw [← hx]
    | error v =>
      rw [hf] at hx
      simp at hx
  have hym : y.1 = m2 := by
    cases hf : fetch m2 with
    | ok v =>
      rw [hf] at hy
      simp at hy
      rw [← hy]
    | error v =>
      rw [hf] at hy
      simp at hy
  omega

/-- Membership in the fulfilled fetches: exactly the blocks of the range
whose fetch succeeded, paired with the fetched block. -/
theorem batchSuccesses_mem (fetch : Nat → Except Unit BlockJS) (s e n : Nat)
    (b : BlockJS) :
    (n, b) ∈ batchSuccesses fetch s e ↔ s ≤ n ∧ n ≤ e ∧ fetch n = .ok b := by
  rw [batchSuccesses, List.mem_filterMap]
  constructor
  · rintro ⟨m, hm, hfm⟩
    rw [List.mem_range'] at hm
    obtain ⟨i, hi, rfl⟩ := hm
    cases hf : fetch (s + 1 * i) <;> rw [hf] at hfm <;> simp at hfm
    obtain ⟨h1, h2⟩ := hfm
    rw [one_mul] at hf
    refine ⟨by omega, by omega, ?_⟩
    rw [← h1, hf, h2]
  · rintro ⟨h1, h2, h3⟩
    refine ⟨n, ?_, ?_⟩
    · rw [List.mem_range']
      exact ⟨n - s, by omega, by omega⟩
    · rw [h3]

/-- C9: for every startBlock ≤ endBlock, the batch fetch returns exactly the
blocks of [startBlock, endBlock] whose individual fetch succeeded, sorted in
ascending block-number order regardless of the order in which the concurrent
fetches completed (any permutation of the fulfilled results sorts to the
same ascending list); an individual block-fetch failure merely omits that
block and never fails the whole batch call. -/
theorem c9_batch_fetch (fetch : Nat → Except Unit BlockJS) (s e : Nat)
    (l : List (Nat × BlockJS)) (hl : l.Perm (batchSuccesses fetch s e)) :
    getBatchBlocks fetch s e = batchSuccesses fetch s e ∧
    sortByKey l = batchSuccesses fetch s e ∧
    (∀ n b, (n, b) ∈ getBatchBlocks fetch s e ↔ s ≤ n ∧ n ≤ e ∧ fetch n = .ok b) ∧
    List.Sorted (fun a b : Nat × BlockJS => a.1 < b.1) (getBatchBlocks fetch s e) := by
  have hsorted := batchSuccesses_sorted fetch s e
  have hself : getBatchBlocks fetch s e = batchSuccesses fetch s e :=
    sortByKey_eq_of_perm _ _ (List.Perm.refl _) hsorted
  refine ⟨hself, sortByKey_eq_of_perm l _ hl hsorted, ?_, by rw [hself]; exact hsorted⟩
  intro n b
  rw [hself]
  exact batchSuccesses_mem fetch s e n b

/-- A trivial block used by the C9 witness. -/
def blkW (n : Nat) : BlockJS :=
  { number := n, hash := "0xh", timestamp := 0, transactions := none }

/-- The C9 witness fetch oracle: block 11's fetch fails. -/
def fetchW (n : Nat) : Except Unit BlockJS :=
  if n = 11 then .error () else .ok (blkW n)

/-- C9 witness: range [10, 12] where block 11's fetch fails; the shuffled
completion order [(12, _), (10, _)] still sorts to the ascending result, and
block 11 is omitted without failing the batch. -/
theorem c9_batch_fetch_witness :
    getBatchBlocks fetchW 10 12 = [(10, blkW 10), (12, blkW 12)] ∧
    sortByKey [(12, blkW 12), (10, blkW 10)] = [(10, blkW 10), (12, blkW 12)] := by
  obtain ⟨h1, h2, -, -⟩ := c9_batch_fetch fetchW 10 12
    [(12, blkW 12), (10, blkW 10)] (by decide)
  constructor
  · rw [h1]; decide
  · rw [h2]; decide

/-! ### C3: upsert semantics of the record sink -/

/-- A record detected on Ethereum mainnet. -/
def recEth : ContractRecord :=
  { address := "0xaaa"
    creatorAddress := "0xc1"
    transactionHash := some "0xt1"
    blockNumber := 1
    blockHash := "0xb1"
    blockTimestamp := 10
    gasUsed := none
    gasPrice := none
    contractSize := 0
    bytecodeHash := "h1"
    network := "ethereum"
    chainId := 1
    creationType := none }

/-- The same address detected on Polygon, with different metadata. -/
def recPoly : ContractRecord :=
  { recEth with creatorAddress := "0xc2", network := "polygon", chainId := 137 }

/-- C3: false as stated for the cross-network part — the `contracts` table's
uniqueness constraint is `address TEXT UNIQUE` with no network component, so
upserting the same address under a different network REPLACES the earlier
row instead of storing it separately: after saving (0xaaa, ethereum) and
then (0xaaa, polygon), the (0xaaa, ethereum) record is gone and exactly one
row remains, reflecting the polygon call. -/
theorem c3_network_counterexample :
    contractsFor (saveContract (saveContract [] recEth) recPoly) "0xaaa" "ethereum" = [] ∧
    saveContract (saveContract [] recEth) recPoly = [rowOfRecord recPoly] := by
  decide

/-- C3 (amended): the upsert is keyed by address alone — upserting a second
record with the same address (in particular, the same (address, network)
pair) leaves exactly one stored row for that address, whose fields reflect
the later call; a second detection of the same address on a different
network also overwrites rather than being stored separately. -/
theorem c3_upsert_last_write_wins (db : List ContractRow) (r1 r2 : ContractRecord)
    (h : r1.address = r2.address) :
    (saveContract (saveContract db r1) r2).filter
        (fun row => row.address = r2.address) = [rowOfRecord r2] ∧
    contractsFor (saveContract (saveContract db r1) r2) r2.address r2.network =
      [rowOfRecord r2] := by
  have hkey : ∀ (l : List ContractRow) (q : ContractRow → Bool),
      (∀ row : ContractRow, q row = true → row.address = r2.address) →
      (l.filter (fun row => row.address ≠ r2.address)).filter q = [] := by
    intro l q hq
    rw [List.filter_eq_nil_iff]
    intro row hrow
    have hne := List.of_mem_filter hrow
    simp only [ne_eq, decide_not, Bool.not_eq_eq_eq_not, Bool.not_true,
      decide_eq_false_iff_not] at hne
    intro hqrow
    exact hne (hq row hqrow)
  have hsave : saveContract (saveContract db r1) r2 =
      ((db.filter (fun row => row.address ≠ r1.address) ++ [rowOfRecord r1]).filter
        (fun row => row.address ≠ r2.address)) ++ [rowOfRecord r2] := rfl
  have hrow1 : (rowOfRecord r1).address = r2.address := h
  have hmid : ((db.filter (fun row => row.address ≠ r1.address) ++
      [rowOfRecord r1]).filter (fun row => row.address ≠ r2.address)) =
      (db.filter (fun row => row.address ≠ r1.address)).filter
        (fun row => row.address ≠ r2.address) := by
    rw [List.filter_append]
    simp [List.filter_cons, hrow1]
  have hswap : (db.filter (fun row => row.address ≠ r1.address)).filter
      (fun row => row.address ≠ r2.address) =
      (db.filter (fun row => row.address ≠ r2.address)).filter
        (fun row => row.address ≠ r1.address) := by
    rw [List.filter_filter, List.filter_filter]
    congr 1
    funext row
    rw [Bool.and_comm]
  constructor
  · rw [hsave, List.filter_append, hmid, hswap, List.filter_filter]
    rw [hkey db _ (by intro row hrow; simpa using (Bool.and_elim_left hrow))]
    simp [List.filter_cons, rowOfRecord]
  · rw [contractsFor, hsave, List.filter_append, hmid, hswap, List.filter_filter]
    rw [hkey db _ (by
      intro row hrow
      have := Bool.and_elim_left hrow
      simp only [decide_eq_true_eq] at this
      exact this.1)]
    simp [List.filter_cons, rowOfRecord]

/-- C3 witness: the two concrete records for the same address. -/
theorem c3_upsert_last_write_wins_witness :
    (saveContract (saveContract [] recEth) recPoly).filter
        (fun row => row.address = recPoly.address) = [rowOfRecord recPoly] ∧
    contractsFor (saveContract (saveContract [] recEth) recPoly) recPoly.address
        recPoly.network = [rowOfRecord recPoly] :=
  c3_upsert_last_write_wins [] recEth recPoly rfl

/-! ### C4: every emitted record has non-empty on-chain bytecode -/

/-- A successful extraction implies the address's fetched bytecode exists
and is neither absent nor "0x", and the record stores the lowercased
address. -/
theorem extractContractData_some {p : ProviderM} {analyze : Bool} {tx : TxnJS}
    {receipt : ReceiptJS} {block : BlockJS} {a : String} {cd : ContractRecord}
    (h : extractContractData p analyze tx receipt block a = some cd) :
    ∃ code, p.getCode a = .ok code ∧ code ≠ "" ∧ code ≠ "0x" ∧
      cd.address = toLower a := by
  rw [extractContractData] at h
  split at h
  · exact absurd h (by simp)
  · rename_i code hcodeEq
    split at h
    · exact absurd h (by simp)
    · rename_i hcode
      push_neg at hcode
      split at h
      · exact absurd h (by simp)
      · split at h
        · exact absurd h (by simp)
        · cases h
          exact ⟨code, hcodeEq, hcode.1, hcode.2, rfl⟩

/-- Every CREATE2-detected record comes from a successful extraction for a
bytecode-bearing address. -/
theorem detectCreate2Contracts_some {p : ProviderM} {analyze : Bool} {tx : TxnJS}
    {receipt : ReceiptJS} {block : BlockJS} {r : ContractRecord}
    (h : r ∈ detectCreate2Contracts p analyze tx receipt block) :
    ∃ a code, p.getCode a = .ok code ∧ code ≠ "" ∧ code ≠ "0x" ∧
      r.address = toLower a := by
  rw [detectCreate2Contracts] at h
  split at h
  · rw [List.mem_flatMap] at h
    obtain ⟨log, hlog, hr⟩ := h
    split at hr
    · rename_i la hla
      split at hr
      · split at hr
        · split at hr
          · rename_i cd hcd
            rw [List.mem_singleton] at hr
            obtain ⟨code, hcode⟩ := extractContractData_some hcd
            exact ⟨la, code, hcode.1, hcode.2.1, hcode.2.2.1, by
              rw [hr]
              exact hcode.2.2.2⟩
          · exact absurd hr (by simp)
        · exact absurd hr (by simp)
      · exact absurd hr (by simp)
    · exact absurd hr (by simp)
  · exact absurd h (by simp)

/-- Every factory- or CREATE2-detected record comes from a successful
extraction for a bytecode-bearing address. -/
theorem detectFactoryContracts_some {p : ProviderM} {analyze : Bool} {tx : TxnJS}
    {receipt : ReceiptJS} {block : BlockJS} {r : ContractRecord}
    (h : r ∈ detectFactoryContracts p analyze receipt tx block) :
    ∃ a code, p.getCode a = .ok code ∧ code ≠ "" ∧ code ≠ "0x" ∧
      r.address = toLower a := by
  rw [detectFactoryContracts] at h
  rw [List.mem_append] at h
  rcases h with h | h
  · rw [List.mem_flatMap] at h
    obtain ⟨log, hlog, hr⟩ := h
    split at hr
    · split at hr
      · split at hr
        · rename_i a2 ha2
          split at hr
          · split at hr
            · rename_i cd hcd
              rw [List.mem_singleton] at hr
              obtain ⟨code, hcode⟩ := extractContractData_some hcd
              exact ⟨a2, code, hcode.1, hcode.2.1, hcode.2.2.1, by
                rw [hr]
                exact hcode.2.2.2⟩
            · exact absurd hr (by simp)
          · exact absurd hr (by simp)
        · exact absurd hr (by simp)
      · exact absurd hr (by simp)
    · exact absurd hr (by simp)
  · split at h
    · exact detectCreate2Contracts_some h
    · exact absurd h (by simp)

/-- Every record a transaction contributes comes from a successful
extraction for a bytecode-bearing address. -/
theorem processTransaction_some {p : ProviderM} {analyze : Bool} {tx : TxnJS}
    {block : BlockJS} {r : ContractRecord}
    (h : r ∈ (processTransaction p analyze tx block).getD []) :
    ∃ a code, p.getCode a = .ok code ∧ code ≠ "" ∧ code ≠ "0x" ∧
      r.address = toLower a := by
  rw [processTransaction] at h
  split at h
  · exact absurd h (by simp)
  · split at h
    · exact absurd h (by simp)
    · split at h
      · exact absurd h (by simp)
      · split at h
        · exact absurd h (by simp)
        · exact absurd h (by simp)
        · rename_i receipt hreceipt
          split at h
          · exact absurd h (by simp)
          · rw [Option.getD_some, List.mem_append] at h
            rcases h with h | h
            · split at h
              · rename_i ca hca
                split at h
                · exact absurd h (by simp)
                · cases hcd : extractContractData p analyze tx receipt block ca with
                  | none => rw [hcd] at h; exact absurd h (by simp)
                  | some cd =>
                    rw [hcd] at h
                    rw [Option.toList_some, List.mem_singleton] at h
                    obtain ⟨code, hcode⟩ := extractContractData_some hcd
                    exact ⟨ca, code, hcode.1, hcode.2.1, hcode.2.2.1, by
                      rw [h]
                      exact hcode.2.2.2⟩
              · exact absurd h (by simp)
            · exact detectFactoryContracts_some h

/-- C4: every ContractRecord emitted by the detector — via the direct,
factory, or CREATE2 path — is for an address whose fetched on-chain
bytecode is non-empty; an address whose getCode result is absent (throws /
empty) or "0x" never yields a record. -/
theorem c4_nonempty_bytecode (p : ProviderM) (analyze : Bool)
    (blockOpt : Option BlockJS) (r : ContractRecord)
    (h : r ∈ processBlockD p analyze blockOpt) :
    ∃ a code, p.getCode a = .ok code ∧ code ≠ "" ∧ code ≠ "0x" ∧
      r.address = toLower a := by
  rw [processBlockD.eq_def] at h
  split at h
  · exact absurd h (by simp)
  · split at h
    · exact absurd h (by simp)
    · rw [List.mem_flatMap] at h
      obtain ⟨tx, -, hr⟩ := h
      exact processTransaction_some hr

/-! ### Concrete detector scenarios (C4 witness, C5, C6, C10) -/

/-- A successful direct-creation receipt. -/
def rcptOk : ReceiptJS :=
  { status := 1, contractAddress := some "0xC0DE", gasUsed := some 21000, logs := [] }

/-- A provider where every address has bytecode "0x6001" and every receipt
is `rcptOk`; the hash function is the identity. -/
def provOk : ProviderM :=
  { getCode := fun _ => .ok "0x6001"
    getReceipt := fun _ => .ok (some rcptOk)
    sha256 := fun s => s
    networkName := "testnet"
    chainId := 1 }

/-- A creation transaction: destination absent. -/
def txOk : TxnJS :=
  { hash := some "0xt1", sender := some "0xAB", toAddr := none,
    gasPrice := some 5, input := some "0x" }

/-- The block containing `txOk`. -/
def blkOk : BlockJS :=
  { number := 7, hash := "0xB", timestamp := 99, transactions := some [some txOk] }

/-- The record the direct path produces for `txOk` under `provOk`. -/
def recOk : ContractRecord :=
  { address := "0xc0de"
    creatorAddress := "0xab"
    transactionHash := some "0xt1"
    blockNumber := 7
    blockHash := "0xB"
    blockTimestamp := 99
    gasUsed := some 21000
    gasPrice := some 5
    contractSize := 2
    bytecodeHash := "0x6001"
    network := "testnet"
    chainId := 1
    creationType := none }

/-- C4 witness: the record detected in `blkOk` has bytecode "0x6001". -/
theorem c4_nonempty_bytecode_witness :
    ∃ a code, provOk.getCode a = .ok code ∧ code ≠ "" ∧ code ≠ "0x" ∧
      recOk.address = toLower a := by
  have hmem : recOk ∈ processBlockD provOk false (some blkOk) := by
    have hev : processBlockD provOk false (some blkOk) = [recOk] := by rfl
    rw [hev]
    exact List.mem_singleton.mpr rfl
  exact c4_nonempty_bytecode provOk false (some blkOk) recOk hmem

/-! ### C5: the direct-creation scenario and the analyzeBytecode bug -/

/-- The same provider, but every receipt reports failure status. -/
def provFailStatus : ProviderM :=
  { provOk with getReceipt := fun _ => .ok (some { rcptOk with status := 0 }) }

/-- C5: with `analyzeBytecode` disabled the scenario behaves as claimed — a
transaction with absent destination, successful receipt carrying a contract
address with non-empty bytecode yields exactly one record, with no creation
type tag (= direct), and a failure-status receipt yields zero records.  But
with `analyzeBytecode` enabled the same scenario yields ZERO records: the
code calls `this.analyzeBytecode(bytecode, address)` where
`this.analyzeBytecode` is the boolean configuration flag (the method is
named `analyzeContractBytecode`), the TypeError is caught by
`extractContractData`'s catch, and null is returned — contradicting the
claim, whose intent the never-called `analyzeContractBytecode` method makes
clear. -/
theorem c5_direct_creation_scenario :
    (processTransaction provOk false txOk blkOk).getD [] = [recOk] ∧
    recOk.creationType = none ∧
    processTransaction provOk true txOk blkOk = some [] ∧
    processTransaction provFailStatus false txOk blkOk = none := by
  exact ⟨rfl, rfl, rfl, rfl⟩

/-! ### C6: factory detection is gated by the direct-creation check -/

/-- A 66-character indexed topic carrying the candidate address in its last
40 characters. -/
def topicAddr : String :=
  "0x" ++ String.mk (List.replicate 24 '0') ++ String.mk (List.replicate 40 '1')

/-- The candidate address extracted from `topicAddr`. -/
def addrFac : String := "0x" ++ String.mk (List.replicate 40 '1')

/-- A log bearing the first known contract-created topic signature. -/
def logFac : LogJS :=
  { address := some "0xFAC"
    topics := ["0x4db17dd5e4732fb6da34a148104a592783ca119a1e7bb8829eba6cbadef0b511",
      topicAddr]
    data := none }

/-- A successful receipt whose only log is `logFac` and which carries no
direct contract address. -/
def rcptFac : ReceiptJS :=
  { status := 1, contractAddress := none, gasUsed := none, logs := [logFac] }

/-- A provider serving `rcptFac` and bytecode "0x6002" everywhere. -/
def provFac : ProviderM :=
  { getCode := fun _ => .ok "0x6002"
    getReceipt := fun _ => .ok (some rcptFac)
    sha256 := fun s => s
    networkName := "testnet"
    chainId := 1 }

/-- An ordinary call transaction: destination present. -/
def txCallFac : TxnJS :=
  { hash := some "0xt2", sender := some "0xS", toAddr := some "0xDEST",
    gasPrice := none, input := some "0x00" }

/-- The same transaction as a creation candidate (destination absent). -/
def txCreateFac : TxnJS := { txCallFac with toAddr := none }

/-- The record extracted for the factory candidate address. -/
def recFac : ContractRecord :=
  { address := toLower addrFac
    creatorAddress := "0xs"
    transactionHash := some "0xt2"
    blockNumber := 7
    blockHash := "0xB"
    blockTimestamp := 99
    gasUsed := none
    gasPrice := none
    contractSize := 2
    bytecodeHash := "0x6002"
    network := "testnet"
    chainId := 1
    creationType := none }

/-- C6: false as stated — factory/CREATE2 detection is NOT independent of
the direct-creation classification.  `processTransaction` returns before
scanning logs whenever `isContractCreation` is false (`to` present), so a
transaction with a destination whose receipt carries a matching
contract-created log with a bytecode-bearing candidate address still yields
zero records. -/
theorem c6_factory_gated_counterexample :
    (logFac.topics[0]?.getD "") ∈ contractCreationTopics ∧
    extractAddressFromLog logFac = some addrFac ∧
    isContract provFac addrFac = true ∧
    processTransaction provFac false txCallFac blkOk = none := by
  refine ⟨by decide, by rfl, by rfl, by rfl⟩

/-- C6 (amended): for transactions that ARE direct-creation candidates
(absent destination) with a successful receipt, log scanning runs
independently of whether the direct path yielded a record: every log whose
first topic is a known contract-created signature and whose extracted
candidate address currently has bytecode and extracts successfully
contributes a record tagged factory; transactions with a present
destination are never scanned for factory logs at all. -/
theorem c6_factory_for_creation_candidates (p : ProviderM) (analyze : Bool)
    (tx : TxnJS) (block : BlockJS) (h : String) (receipt : ReceiptJS)
    (hhash : tx.hash = some h) (hne : h ≠ "") (hto : tx.toAddr = none)
    (hrcpt : p.getReceipt h = .ok (some receipt)) (hstatus : receipt.status = 1)
    (log : LogJS) (hlog : log ∈ receipt.logs) (t0 : String)
    (ht0 : log.topics[0]? = some t0) (htop : t0 ∈ contractCreationTopics)
    (a : String) (ha : extractAddressFromLog log = some a)
    (hc : isContract p a = true) (cd : ContractRecord)
    (hcd : extractContractData p analyze tx receipt block a = some cd) :
    { cd with creationType := some "factory" } ∈
      (processTransaction p analyze tx block).getD [] ∧
    (∀ tx2 : TxnJS, tx2.toAddr.isSome → processTransaction p analyze tx2 block = none) := by
  constructor
  · have hfac : { cd with creationType := some "factory" } ∈
        detectFactoryContracts p analyze receipt tx block := by
      rw [detectFactoryContracts]
      rw [List.mem_append]
      refine Or.inl ?_
      rw [List.mem_flatMap]
      refine ⟨log, hlog, ?_⟩
      rw [ht0]
      simp only [if_pos htop, ha, hc, if_true, hcd, List.mem_singleton]
    rw [processTransaction, hhash]
    simp only [if_neg hne, hto, Option.isSome_none, Bool.false_eq_true, if_false,
      hrcpt, hstatus, if_neg (show ¬ (1 : Nat) ≠ 1 by omega), Option.getD_some,
      List.mem_append]
    exact Or.inr hfac
  · intro tx2 hto2
    rw [processTransaction]
    cases hh2 : tx2.hash with
    | none => rfl
    | some h2 =>
      by_cases hh2e : h2 = ""
      · simp [hh2e]
      · simp [hh2e, hto2]

/-- C6 witness: the factory log scenario on a creation-candidate
transaction yields the factory-tagged record. -/
theorem c6_factory_for_creation_candidates_witness :
    { recFac with creationType := some "factory" } ∈
      (processTransaction provFac false txCreateFac blkOk).getD [] :=
  (c6_factory_for_creation_candidates provFac false txCreateFac blkOk "0xt2" rcptFac
    rfl (by decide) rfl rfl rfl logFac (List.mem_singleton.mpr rfl)
    "0x4db17dd5e4732fb6da34a148104a592783ca119a1e7bb8829eba6cbadef0b511"
    rfl (by decide) addrFac rfl rfl recFac rfl).1

/-! ### C10: totality and isolation of the per-block entry point -/

/-- The detector's per-transaction processing ignores the block's
transaction list: it reads only the block's number, hash and timestamp. -/
theorem processTransaction_transactions_irrel (p : ProviderM) (analyze : Bool)
    (tx : TxnJS) (block : BlockJS) (txs : Option (List (Option TxnJS))) :
    processTransaction p analyze tx { block with transactions := txs } =
      processTransaction p analyze tx block := rfl

/-- C10: the per-block entry point is total: a null block or a block with no
transactions field yields the empty array; and a transaction that is null,
lacks a truthy hash, or whose processing raises (absorbed into a null
result) contributes zero records without affecting the records of the other
transactions of the block — removing it from the list leaves the output
unchanged. -/
theorem c10_process_block_total (p : ProviderM) (analyze : Bool) (block : BlockJS)
    (txs1 txs2 : List (Option TxnJS)) (t : Option TxnJS)
    (htx : block.transactions = some (txs1 ++ t :: txs2))
    (hfail : ∀ tx : TxnJS, t = some tx → truthyStr tx.hash = true →
      processTransaction p analyze tx block = none) :
    processBlockD p analyze none = [] ∧
    (∀ (n ts : Nat) (hs : String), processBlockD p analyze
        (some { number := n, hash := hs, timestamp := ts, transactions := none }) = []) ∧
    processBlockD p analyze (some block) =
      processBlockD p analyze
        (some { block with transactions := some (txs1 ++ txs2) }) := by
  refine ⟨rfl, fun n ts hs => rfl, ?_⟩
  rw [processBlockD.eq_def, processBlockD.eq_def]
  simp only [htx, processTransaction_transactions_irrel]
  have hmid : ((([t].filterMap id).filter (fun t2 => truthyStr t2.hash)).flatMap
      (fun tx => (processTransaction p analyze tx block).getD [])) = [] := by
    cases t with
    | none => rfl
    | some tx =>
      cases htruthy : truthyStr tx.hash with
      | false =>
        simp only [List.filterMap_cons, List.filterMap_nil, id, List.filter_cons,
          htruthy]
        rfl
      | true =>
        simp only [List.filterMap_cons, List.filterMap_nil, id, List.filter_cons,
          htruthy, if_pos, List.flatMap_cons, List.flatMap_nil,
          hfail tx rfl htruthy]
        rfl
  rw [show txs1 ++ t :: txs2 = (txs1 ++ [t]) ++ txs2 by simp]
  rw [List.filterMap_append, List.filterMap_append, List.filter_append,
    List.filter_append, List.flatMap_append, List.flatMap_append, hmid]
  rw [List.filterMap_append, List.filter_append, List.flatMap_append]
  simp

/-- A creation transaction whose receipt fetch will throw. -/
def txBad : TxnJS :=
  { hash := some "0xbad", sender := some "0xAB", toAddr := none,
    gasPrice := none, input := none }

/-- A provider whose receipt fetch throws (after retries) for `txBad`'s
hash and behaves like `provOk` otherwise. -/
def provC10 : ProviderM :=
  { provOk with getReceipt := fun h2 =>
      if h2 = "0xbad" then .error () else .ok (some rcptOk) }

/-- The block containing `txOk`, the throwing `txBad`, and a null entry. -/
def blkWithBad : BlockJS :=
  { number := 7
    hash := "0xB"
    timestamp := 99
    transactions := some [some txOk, some txBad, none] }

/-- C10 witness: a block whose middle transaction's receipt fetch throws
contributes nothing; the other transactions' records are unaffected. -/
theorem c10_process_block_total_witness :
    processBlockD provC10 false (some blkWithBad) =
      processBlockD provC10 false
        (some { blkWithBad with transactions := some [some txOk, none] }) := by
  have h := c10_process_block_total provC10 false blkWithBad
    [some txOk] [none] (some txBad) rfl
    (fun tx htx _ => by cases htx; rfl)
  exact h.2.2

/-- C8 witness: a running, paused scanner. -/
theorem c8_stop_then_start_witness :
    stopScanner ⟨true, true⟩ = initialScanner ∧
    (startScanner (stopScanner ⟨true, true⟩)).2 = true ∧
    (startScanner (stopScanner ⟨true, true⟩)).1 = { isRunning := true, isPaused := false } :=
  c8_stop_then_start ⟨true, true⟩ rfl

end Scanner
